import Mathlib

/-!
Verification of the four-stage code-generation pipeline (planner, designer,
code generator, tester) and of its coordinator and HTTP endpoint.

Text values are modelled as lists of characters.  Every oracle (LLM) response
is a free input to the stage functions: the source builds a prompt, performs
one blocking call, and then deterministically parses the returned text, so
each stage is a pure function of the response text plus the inputs that
influence parsing (the target language, which appears in fallback strings and
in the known-tag list).  Arguments of the source functions that only flow into
the prompt sent to the oracle (the description, and the plan and design
records given to the code generator and tester) are not parameters here,
because the response is universally quantified anyway.  Python string
primitives (strip, lower, split, startswith, lstrip, the in operator, slicing)
are embedded as executable functions on lists of characters; strip and lower
are embedded at their ASCII behaviour.
-/

/-- Coerce a string literal to the character-list representation of text. -/
def str (s : String) : List Char := s.data

/-- Whitespace removed by the Python strip method (ASCII whitespace). -/
def isPySpace (c : Char) : Bool :=
  c == ' ' || c == '\t' || c == '\n' || c == '\r' || c == '\x0B' || c == '\x0C'

/-- Embeds the Python startswith test. -/
def pfxOf : List Char → List Char → Bool
  | [], _ => true
  | _ :: _, [] => false
  | a :: as, b :: bs => a == b && pfxOf as bs

/-- Embeds the Python in operator on text (substring test). -/
def containsL (sub : List Char) : List Char → Bool
  | [] => sub.isEmpty
  | l@(_ :: t) => pfxOf sub l || containsL sub t

/-- Embeds the Python strip method (remove whitespace at both ends). -/
def trimL (l : List Char) : List Char :=
  ((l.dropWhile isPySpace).reverse.dropWhile isPySpace).reverse

/-- Embeds the Python lower method (ASCII case folding, as Char.toLower). -/
def lowerL (l : List Char) : List Char := l.map Char.toLower

/-- Worker for splitOnL.  The fuel argument only makes the recursion
structural; splitOnL supplies fuel equal to the length of the text, which is
enough because every step consumes at least one character, so the
fuel-exhausted branch is never reached (see the lemmas below). -/
def splitGo (c : Char) (cs : List Char) : Nat → List Char → List Char → List (List Char)
  | _, acc, [] => [acc.reverse]
  | 0, acc, s => [acc.reverse ++ s]
  | n + 1, acc, b :: rest =>
      if pfxOf (c :: cs) (b :: rest) then
        acc.reverse :: splitGo c cs n [] (rest.drop cs.length)
      else
        splitGo c cs n (b :: acc) rest

/-- Embeds the Python split method with a non-empty separator: scan left to
right, cut at each non-overlapping occurrence of the separator.  Python
raises on an empty separator, which never occurs in this program; that case
is mapped to the whole text. -/
def splitOnL (sep s : List Char) : List (List Char) :=
  match sep with
  | [] => [s]
  | c :: cs => splitGo c cs s.length [] s

/-- Embeds the Python join method. -/
def joinL (sep : List Char) (ls : List (List Char)) : List Char :=
  List.intercalate sep ls

/-- The character set of the lstrip calls that clean bullet lines. -/
def bulletChars : List Char := ['-', '*', '•', ' ']

/-- The apostrophe character, built from its code point. -/
def apostrophe : Char := Char.ofNat 39

/-- The contraction of is and not searched for by the tester
(the third word of the negation keyword list). -/
def isntWord : List Char := str "isn" ++ [apostrophe] ++ str "t"

/-! ## Plan stage (src/agents/planner.py, PlannerAgent.plan) -/

/-- Section cursor values of the planner parse loop. -/
inductive PSec
  | overview
  | features
  | approach
  | considerations
deriving DecidableEq

/-- Mutable locals of the planner parse loop. -/
structure PState where
  sect : Option PSec
  overview : List Char
  features : List (List Char)
  approach : List Char
  considerations : List Char
deriving DecidableEq

/-- One iteration of the planner parse loop: strip the line, skip it when
empty, otherwise switch the section cursor on keyword hits, collect bullet
lines under the features section, and append any other line to the text
accumulator of the current section. -/
def plannerStep (st : PState) (raw : List Char) : PState :=
  let line := trimL raw
  if line.isEmpty then st
  else
    let low := lowerL line
    if containsL (str "overview") low || containsL (str "summary") low then
      { st with sect := some PSec.overview }
    else if containsL (str "feature") low || containsL (str "requirement") low then
      { st with sect := some PSec.features }
    else if containsL (str "approach") low || containsL (str "strategy") low then
      { st with sect := some PSec.approach }
    else if containsL (str "consideration") low || containsL (str "note") low then
      { st with sect := some PSec.considerations }
    else if pfxOf (str "-") line || pfxOf (str "*") line || pfxOf (str "•") line then
      if st.sect = some PSec.features then
        { st with features := st.features ++ [line.dropWhile (fun c => bulletChars.contains c)] }
      else st
    else
      match st.sect with
      | some PSec.overview => { st with overview := st.overview ++ line ++ [' '] }
      | some PSec.approach => { st with approach := st.approach ++ line ++ [' '] }
      | some PSec.considerations => { st with considerations := st.considerations ++ line ++ [' '] }
      | _ => st

/-- Initial locals of the planner parse loop. -/
def plannerInit : PState := ⟨none, [], [], [], []⟩

/-- The planner parse loop over the lines of the response. -/
def plannerFold (response : List Char) : PState :=
  (splitOnL (str "\n") response).foldl plannerStep plannerInit

/-- Output schema of the Planner agent. -/
structure PlannerOutput where
  project_overview : List Char
  key_features : List (List Char)
  approach : List Char
  considerations : List Char
deriving DecidableEq

/-- PlannerAgent.plan after the oracle call: parse the response line by line,
then substitute the fallback value for every field that parsed empty, and
strip the text fields. -/
def plannerPlan (language response : List Char) : PlannerOutput :=
  let st := plannerFold response
  let overview := if st.overview.isEmpty then response.take 200 ++ str "..." else st.overview
  let features :=
    if st.features.isEmpty then
      [str "Core functionality as described", str "Error handling",
       str "User-friendly interface"]
    else st.features
  let approach :=
    if st.approach.isEmpty then
      str "Implement using " ++ language ++ str " with clean, modular code structure"
    else st.approach
  let considerations :=
    if st.considerations.isEmpty then
      str "Focus on code quality, readability, and maintainability"
    else st.considerations
  ⟨trimL overview, features, trimL approach, trimL considerations⟩

/-! ## Design stage (src/agents/designer.py, DesignerAgent.design) -/

/-- Section cursor values of the designer parse loop. -/
inductive DSec
  | architecture
  | components
  | data
  | functions
deriving DecidableEq

/-- Mutable locals of the designer parse loop. -/
structure DState where
  sect : Option DSec
  architecture : List Char
  components : List (List Char)
  data_structures : List Char
  function_signatures : List Char
deriving DecidableEq

/-- One iteration of the designer parse loop.  The lines it receives are
already stripped and non-empty (see designerLines).  Section headers are
recognized by lowercase prefix and consumed; bullet lines under the
components section become component entries; any other line is appended to
the accumulator of the current section. -/
def designerStep (st : DState) (line : List Char) : DState :=
  let low := lowerL line
  if pfxOf (str "architecture") low then { st with sect := some DSec.architecture }
  else if pfxOf (str "components") low then { st with sect := some DSec.components }
  else if pfxOf (str "data structures") low then { st with sect := some DSec.data }
  else if pfxOf (str "function signatures") low then { st with sect := some DSec.functions }
  else if (pfxOf (str "-") line || pfxOf (str "*") line || pfxOf (str "•") line)
      ∧ st.sect = some DSec.components then
    { st with components := st.components ++ [trimL (line.dropWhile (fun c => bulletChars.contains c))] }
  else
    match st.sect with
    | some DSec.architecture => { st with architecture := st.architecture ++ line ++ [' '] }
    | some DSec.data => { st with data_structures := st.data_structures ++ line ++ [' '] }
    | some DSec.functions => { st with function_signatures := st.function_signatures ++ line ++ [' '] }
    | _ => st

/-- Initial locals of the designer parse loop. -/
def designerInit : DState := ⟨none, [], [], [], []⟩

/-- The line list the designer iterates over: each line of the response,
stripped, with empty results dropped. -/
def designerLines (response : List Char) : List (List Char) :=
  ((splitOnL (str "\n") response).map trimL).filter (fun l => !l.isEmpty)

/-- The designer parse loop. -/
def designerFold (response : List Char) : DState :=
  (designerLines response).foldl designerStep designerInit

/-- Output schema of the Designer agent. -/
structure DesignerOutput where
  architecture : List Char
  components : List (List Char)
  data_structures : List Char
  function_signatures : List Char
deriving DecidableEq

/-- DesignerAgent.design after the oracle call: parse the response, apply the
hard fail-safe defaults for every field that parsed empty, cap the component
list at ten entries, and strip the text fields. -/
def designerDesign (language response : List Char) : DesignerOutput :=
  let st := designerFold response
  let architecture :=
    if st.architecture.isEmpty then
      str "Modular " ++ language ++ str " application with separated logic, state, and execution layers."
    else st.architecture
  let components :=
    if st.components.isEmpty then
      [str "main entry point", str "core logic module", str "state/data manager",
       str "input handling", str "rendering/output module"]
    else st.components
  let data_structures :=
    if st.data_structures.isEmpty then
      str "Core state objects, configuration structures, and runtime data containers."
    else st.data_structures
  let function_signatures :=
    if st.function_signatures.isEmpty then
      str "initialize(), run_loop(), update_state(), handle_input(), render_output(), cleanup()"
    else st.function_signatures
  ⟨trimL architecture, components.take 10, trimL data_structures, trimL function_signatures⟩

/-! ## Code generation stage (src/agents/code_generator.py, CodeGeneratorAgent.generate) -/

/-- Output schema of the Code Generator agent. -/
structure CodeGeneratorOutput where
  code : List Char
  filename : List Char
  explanation : List Char
deriving DecidableEq

/-- The language identifiers recognized at the start of a fenced block: a
fixed list plus the lowercased target language. -/
def knownTags (language : List Char) : List (List Char) :=
  [str "python", str "javascript", str "java", str "cpp", str "c++", str "c",
   str "go", str "rust", lowerL language]

/-- Processing of one fenced block: strip it, split it into lines, and when
the first line (stripped and lowercased) is a known language tag, rejoin the
remaining lines; otherwise keep the stripped block. -/
def processBlock (language part : List Char) : List Char :=
  let ls := splitOnL (str "\n") (trimL part)
  if (knownTags language).contains (lowerL (trimL ls.headI)) then joinL (str "\n") ls.tail
  else trimL part

/-- The extraction loop over the split parts: it walks the parts with their
index parity and stops at the first odd index (the source loop breaks after
the first code block). -/
def findCodeBlock (language : List Char) : List (List Char) → Bool → Option (List Char)
  | [], _ => none
  | p :: rest, parity =>
      if parity then some (processBlock language p)
      else findCodeBlock language rest true

/-- The language-to-extension lookup table. -/
def extensionMap : List (List Char × List Char) :=
  [(str "python", str ".py"), (str "javascript", str ".js"), (str "java", str ".java"),
   (str "cpp", str ".cpp"), (str "c++", str ".cpp"), (str "c", str ".c"),
   (str "go", str ".go"), (str "rust", str ".rs"), (str "ruby", str ".rb"),
   (str "php", str ".php"), (str "typescript", str ".ts"), (str "swift", str ".swift"),
   (str "kotlin", str ".kt")]

/-- The suggested filename: a fixed stem plus the extension looked up under
the lowercased language, defaulting to the generic extension. -/
def filenameFor (language : List Char) : List Char :=
  str "generated_code" ++ ((List.lookup (lowerL language) extensionMap).getD (str ".txt"))

/-- The code and explanation extracted from the response: when the response
contains fence delimiters, split on them, take the first odd part as the code
(tag line stripped) and the stripped part before the first fence as the
explanation; otherwise the whole response is the code and the explanation is
a canned string. -/
def extractPair (language response : List Char) : List Char × List Char :=
  if containsL (str "```") response then
    let parts := splitOnL (str "```") response
    ((findCodeBlock language parts false).getD [],
      if (trimL parts.headI).isEmpty then [] else trimL parts.headI)
  else
    (response, str "Generated " ++ language ++ str " code as per requirements")

/-- CodeGeneratorAgent.generate after the oracle call: extract code and
explanation, strip the code, substitute the explanation fallback when it is
empty, truncate the explanation to five hundred characters, and attach the
suggested filename. -/
def codeGenerate (language response : List Char) : CodeGeneratorOutput :=
  let pair := extractPair language response
  let explanation :=
    if pair.2.isEmpty then str "Complete " ++ language ++ str " implementation based on the requirements"
    else pair.2
  ⟨trimL pair.1, filenameFor language, explanation.take 500⟩

/-! ## Test and review stage (src/agents/tester.py, TesterAgent.test) -/

/-- Section cursor values of the tester parse loop. -/
inductive TSec
  | quality
  | tests
  | issues
  | suggestions
deriving DecidableEq

/-- Mutable locals of the tester parse loop.  The source also initializes a
test_results list, but the loop never appends to it, so it stays empty until
the fallback after the loop fills it. -/
structure TState where
  sect : Option TSec
  quality : List Char
  issues : List (List Char)
  suggestions : List (List Char)
  ready : Bool
deriving DecidableEq

/-- Section detection of the tester loop (the first elif chain): switch the
cursor on keyword hits; a line mentioning production or readiness together
with a negation word clears the readiness flag and changes no section. -/
def testerSections (st : TState) (low : List Char) : TState :=
  if containsL (str "quality") low || containsL (str "assessment") low then
    { st with sect := some TSec.quality }
  else if containsL (str "test") low && containsL (str "result") low then
    { st with sect := some TSec.tests }
  else if containsL (str "issue") low || containsL (str "problem") low || containsL (str "concern") low then
    { st with sect := some TSec.issues }
  else if containsL (str "suggest") low || containsL (str "recommend") low || containsL (str "improve") low then
    { st with sect := some TSec.suggestions }
  else if containsL (str "production") low || containsL (str "ready") low then
    if containsL (str "not") low || containsL isntWord low || containsL (str "no") low then
      { st with ready := false }
    else st
  else st

/-- Content extraction of the tester loop (the second phase of the body):
bullet lines are cleaned and appended to the issue list (clearing the
readiness flag) or to the suggestion list depending on the cursor; the first
non-bullet line seen under the quality section seeds the quality text. -/
def testerExtract (st : TState) (line : List Char) : TState :=
  if pfxOf (str "-") line || pfxOf (str "*") line || pfxOf (str "•") line then
    let clean := trimL (line.dropWhile (fun c => bulletChars.contains c))
    if st.sect = some TSec.issues then
      { st with issues := st.issues ++ [clean], ready := false }
    else if st.sect = some TSec.suggestions then
      { st with suggestions := st.suggestions ++ [clean] }
    else st
  else
    if st.sect = some TSec.quality ∧ st.quality.isEmpty then
      { st with quality := st.quality ++ line ++ [' '] }
    else st

/-- One iteration of the tester parse loop: strip the line, skip it when
empty, otherwise run section detection and then content extraction. -/
def testerStep (st : TState) (raw : List Char) : TState :=
  let line := trimL raw
  if line.isEmpty then st
  else testerExtract (testerSections st (lowerL line)) line

/-- Initial locals of the tester parse loop (the readiness flag starts true). -/
def testerInit : TState := ⟨none, [], [], [], true⟩

/-- The tester parse loop over the lines of the response. -/
def testerFold (response : List Char) : TState :=
  (splitOnL (str "\n") response).foldl testerStep testerInit

/-- Individual test result of the Tester agent. -/
structure TestResult where
  test_name : List Char
  passed : Bool
  details : List Char
deriving DecidableEq

/-- Output schema of the Tester agent. -/
structure TesterOutput where
  overall_quality : List Char
  test_results : List TestResult
  issues_found : List (List Char)
  suggestions : List (List Char)
  is_production_ready : Bool
deriving DecidableEq

/-- TesterAgent.test after the oracle call: parse the response, then build
the three canned test results from the collected issues, substitute fallback
values for empty fields, and force the readiness flag to true when no issue
was collected. -/
def testerTest (response : List Char) : TesterOutput :=
  let st := testerFold response
  let test_results : List TestResult :=
    [⟨str "Syntax Check", !(st.issues.any (fun i => containsL (str "syntax") (lowerL i))),
      str "Code syntax appears valid"⟩,
     ⟨str "Logic Review", !(st.issues.any (fun i => containsL (str "logic") (lowerL i))),
      str "Logic flow reviewed"⟩,
     ⟨str "Best Practices", st.issues.isEmpty,
      if st.issues.isEmpty then str "Code follows standard practices"
      else str "Some improvements suggested"⟩]
  let quality :=
    if st.quality.isEmpty then
      str "Code review completed. " ++
        (if st.issues.isEmpty then str "No major issues found."
         else str (Nat.repr st.issues.length) ++ str " issues identified.")
    else st.quality
  let issues := if st.issues.isEmpty then [str "No critical issues found"] else st.issues
  let ready := if st.issues.isEmpty then true else st.ready
  let suggestions :=
    if st.suggestions.isEmpty then
      [str "Code appears functional", str "Consider adding more comments",
       str "Test with various inputs"]
    else st.suggestions
  ⟨trimL quality, test_results, issues, suggestions, ready⟩

/-! ## Coordinator and HTTP endpoint (src/orchestrator.py, src/web_api.py) -/

/-- The heterogeneous values stored in the result dictionary returned by
CodeGenerationOrchestrator.generate_code. -/
inductive ResultValue where
  | s (v : List Char)
  | plan (v : PlannerOutput)
  | design (v : DesignerOutput)
  | code (v : CodeGeneratorOutput)
  | test (v : TesterOutput)
deriving DecidableEq

/-- The result dictionary of the orchestrator, in insertion order: the two
echoed inputs and the four stage outputs under the keys description,
language, plan, design, code and test_results. -/
def orchestratorResults (description language pResp dResp cResp tResp : List Char) :
    List (List Char × ResultValue) :=
  [(str "description", ResultValue.s description),
   (str "language", ResultValue.s language),
   (str "plan", ResultValue.plan (plannerPlan language pResp)),
   (str "design", ResultValue.design (designerDesign language dResp)),
   (str "code", ResultValue.code (codeGenerate language cResp)),
   (str "test_results", ResultValue.test (testerTest tResp))]

/-- Embeds the Python dict get method with a default. -/
def dictGet (d : List (List Char × ResultValue)) (key : List Char) (dflt : ResultValue) :
    ResultValue :=
  (List.lookup key d).getD dflt

/-- The JSON object returned by the generate endpoint, with its four keys. -/
structure WebResponse where
  planning : ResultValue
  design : ResultValue
  code : ResultValue
  testing : ResultValue
deriving DecidableEq

/-- The generate endpoint of src/web_api.py: run the orchestrator and read
the keys planner, designer, code and tester out of its result dictionary,
each defaulting to the empty string. -/
def webGenerate (description language pResp dResp cResp tResp : List Char) : WebResponse :=
  let result := orchestratorResults description language pResp dResp cResp tResp
  ⟨dictGet result (str "planner") (ResultValue.s []),
   dictGet result (str "designer") (ResultValue.s []),
   dictGet result (str "code") (ResultValue.s []),
   dictGet result (str "tester") (ResultValue.s [])⟩

/-! ## Definitions modelled from the spec

The repository described by the spec contains duplicated and alternate
versions of each stage (the spec counts about 1700 lines against the roughly
900 lines present under src); the deterministic static checks of the test
stage exist only in those alternate versions.  The following definitions are
modelled from the spec text for the claims that concern them. -/

/-- Modelled from the spec: the deterministic static infinite-loop check of
the Test/Review stage (spec section 4.4, item a), absent from
src/agents/tester.py.  Per the spec, code containing the unconditional loop
text with no break keyword anywhere in the text is flagged as a potential
infinite loop, and the flag is independent of any oracle call. -/
def staticInfiniteLoopFlag (code : List Char) : Bool :=
  containsL (str "while (true)") code && !(containsL (str "break") code)

/-- Modelled from the spec (claim C6 wording): collect the content at every
odd split position as a code block, stripping a leading known-language-tag
line from each. -/
def specAllOddBlocks (language : List Char) : List (List Char) → Bool → List (List Char)
  | [], _ => []
  | p :: rest, parity =>
      if parity then processBlock language p :: specAllOddBlocks language rest false
      else specAllOddBlocks language rest true

/-- Modelled from the spec (claim C6 wording): split the response on the
fence delimiters and reassemble all odd-position code blocks by
concatenation. -/
def specRejoinAllBlocks (language content : List Char) : List Char :=
  (specAllOddBlocks language (splitOnL (str "```") content) false).flatten

/-! ## Lemmas about the text primitives -/

/-- A non-empty result of dropWhile contains an element refuting the
predicate (its head). -/
theorem dropWhile_exists_not {p : Char → Bool} :
    ∀ l : List Char, l.dropWhile p ≠ [] → ∃ c ∈ l.dropWhile p, p c = false := by
  intro l
  induction l with
  | nil => simp
  | cons a t ih =>
      intro h
      by_cases hp : p a = true
      · rw [List.dropWhile_cons_of_pos hp] at h ⊢
        exact ih h
      · rw [List.dropWhile_cons_of_neg hp] at h ⊢
        exact ⟨a, List.mem_cons_self a t, Bool.eq_false_iff.mpr hp⟩

/-- If stripping a text yields nothing, the text was all whitespace. -/
theorem trimL_eq_nil {l : List Char} (h : trimL l = []) : ∀ c ∈ l, isPySpace c = true := by
  unfold trimL at h
  rw [List.reverse_eq_nil_iff, List.dropWhile_eq_nil_iff] at h
  have h2 : ∀ c ∈ l.dropWhile isPySpace, isPySpace c = true :=
    fun c hc => h c (List.mem_reverse.mpr hc)
  intro c hc
  have hsplit := List.takeWhile_append_dropWhile (p := isPySpace) (l := l)
  rw [← hsplit] at hc
  rcases List.mem_append.mp hc with h3 | h3
  · exact List.mem_takeWhile_imp h3
  · exact h2 c h3

/-- A text containing a non-whitespace character strips to something
non-empty. -/
theorem trimL_ne_nil_of_mem {l : List Char} {c : Char} (hc : c ∈ l)
    (hs : isPySpace c = false) : trimL l ≠ [] := by
  intro h
  have := trimL_eq_nil h c hc
  rw [hs] at this
  exact Bool.false_ne_true this

/-- A non-empty stripped text contains a non-whitespace character. -/
theorem exists_nonspace_of_trimL {l : List Char} (h : trimL l ≠ []) :
    ∃ c ∈ trimL l, isPySpace c = false := by
  unfold trimL at h ⊢
  have h2 : (l.dropWhile isPySpace).reverse.dropWhile isPySpace ≠ [] := by
    intro h3
    rw [h3] at h
    exact h rfl
  obtain ⟨c, hc, hcs⟩ := dropWhile_exists_not _ h2
  exact ⟨c, List.mem_reverse.mpr hc, hcs⟩

/-- Invariant of the text accumulators of the parse loops: empty, or holding
a non-whitespace character (so that the final strip keeps it non-empty). -/
def okAcc (l : List Char) : Prop := l = [] ∨ ∃ c ∈ l, isPySpace c = false

theorem okAcc_nil : okAcc [] := Or.inl rfl

/-- Appending a line holding a non-whitespace character (plus the trailing
blank of the accumulation) keeps the accumulator invariant. -/
theorem okAcc_extend {m : List Char} (a : List Char)
    (hm : ∃ c ∈ m, isPySpace c = false) : okAcc (a ++ m ++ [' ']) := by
  obtain ⟨c, hc, hs⟩ := hm
  exact Or.inr ⟨c, List.mem_append.mpr (Or.inl (List.mem_append.mpr (Or.inr hc))), hs⟩

/-- A non-empty accumulator satisfying the invariant strips to something
non-empty. -/
theorem trimL_ne_nil_of_okAcc {l : List Char} (h1 : okAcc l) (h2 : l ≠ []) :
    trimL l ≠ [] := by
  rcases h1 with h | ⟨c, hc, hs⟩
  · exact absurd h h2
  · exact trimL_ne_nil_of_mem hc hs

/-! ## Lemmas about splitOnL -/

/-- The split worker never returns an empty list. -/
theorem splitGo_ne_nil (c : Char) (cs : List Char) :
    ∀ (n : Nat) (acc s : List Char), splitGo c cs n acc s ≠ [] := by
  intro n
  induction n with
  | zero => intro acc s; cases s <;> simp [splitGo]
  | succ n ih =>
      intro acc s
      cases s with
      | nil => simp [splitGo]
      | cons b rest =>
          simp only [splitGo]
          split
          · simp
          · exact ih _ _

/-- With enough fuel, a text free of the separator is not split. -/
theorem splitGo_not_contains (c : Char) (cs : List Char) :
    ∀ (n : Nat) (acc s : List Char), s.length ≤ n →
      containsL (c :: cs) s = false → splitGo c cs n acc s = [acc.reverse ++ s] := by
  intro n
  induction n with
  | zero =>
      intro acc s hlen _
      have hs : s = [] := List.length_eq_zero.mp (Nat.le_zero.mp hlen)
      subst hs
      simp [splitGo]
  | succ n ih =>
      intro acc s hlen hc
      cases s with
      | nil => simp [splitGo]
      | cons b rest =>
          simp only [containsL, Bool.or_eq_false_iff] at hc
          obtain ⟨h1, h2⟩ := hc
          simp only [splitGo, h1]
          rw [if_neg (by simp [h1])]
          rw [ih (b :: acc) rest (by simpa using Nat.le_of_succ_le_succ hlen) h2]
          simp

/-- With enough fuel, a text containing the separator splits into at least
two parts. -/
theorem splitGo_two_le (c : Char) (cs : List Char) :
    ∀ (n : Nat) (acc s : List Char), s.length ≤ n →
      containsL (c :: cs) s = true → 2 ≤ (splitGo c cs n acc s).length := by
  intro n
  induction n with
  | zero =>
      intro acc s hlen hc
      have hs : s = [] := List.length_eq_zero.mp (Nat.le_zero.mp hlen)
      subst hs
      simp [containsL] at hc
  | succ n ih =>
      intro acc s hlen hc
      cases s with
      | nil => simp [containsL] at hc
      | cons b rest =>
          simp only [splitGo]
          split
          · have h := splitGo_ne_nil c cs n [] (rest.drop cs.length)
            have hpos : 0 < (splitGo c cs n [] (rest.drop cs.length)).length :=
              List.length_pos.mpr h
            simp only [List.length_cons]
            omega
          · rename_i hpf
            simp only [containsL, Bool.or_eq_true] at hc
            rcases hc with h | h
            · exact absurd h hpf
            · exact ih (b :: acc) rest (by simpa using Nat.le_of_succ_le_succ hlen) h

/-- A text free of a non-empty separator is returned whole by the split. -/
theorem splitOnL_not_contains {sep s : List Char} (hsep : sep ≠ [])
    (h : containsL sep s = false) : splitOnL sep s = [s] := by
  cases sep with
  | nil => exact absurd rfl hsep
  | cons c cs =>
      show splitGo c cs s.length [] s = [s]
      rw [splitGo_not_contains c cs s.length [] s (Nat.le_refl _) h]
      simp

/-- A text containing a non-empty separator splits into at least two parts. -/
theorem splitOnL_two_le {sep s : List Char} (hsep : sep ≠ [])
    (h : containsL sep s = true) : 2 ≤ (splitOnL sep s).length := by
  cases sep with
  | nil => exact absurd rfl hsep
  | cons c cs =>
      show 2 ≤ (splitGo c cs s.length [] s).length
      exact splitGo_two_le c cs s.length [] s (Nat.le_refl _) h

/-! ## Invariants of the parse loops -/

/-- Invariant of the planner loop state: every text accumulator is empty or
holds a non-whitespace character. -/
def PInv (st : PState) : Prop :=
  okAcc st.overview ∧ okAcc st.approach ∧ okAcc st.considerations

theorem plannerStep_inv (st : PState) (raw : List Char) (h : PInv st) :
    PInv (plannerStep st raw) := by
  obtain ⟨h1, h2, h3⟩ := h
  simp only [plannerStep]
  split
  · exact ⟨h1, h2, h3⟩
  · rename_i he
    have hline : trimL raw ≠ [] := fun hn => he (by simp [hn])
    have hex := exists_nonspace_of_trimL hline
    repeat' split
    all_goals first
      | exact ⟨h1, h2, h3⟩
      | exact ⟨okAcc_extend _ hex, h2, h3⟩
      | exact ⟨h1, okAcc_extend _ hex, h3⟩
      | exact ⟨h1, h2, okAcc_extend _ hex⟩

theorem foldl_inv_planner :
    ∀ (L : List (List Char)) (st : PState), PInv st → PInv (L.foldl plannerStep st)
  | [], _, h => h
  | _ :: t, st, h => foldl_inv_planner t _ (plannerStep_inv st _ h)

theorem plannerFold_inv (response : List Char) : PInv (plannerFold response) :=
  foldl_inv_planner _ _ ⟨okAcc_nil, okAcc_nil, okAcc_nil⟩

/-- Invariant of the designer loop state. -/
def DInv (st : DState) : Prop :=
  okAcc st.architecture ∧ okAcc st.data_structures ∧ okAcc st.function_signatures

theorem designerStep_inv (st : DState) (line : List Char)
    (hex : ∃ c ∈ line, isPySpace c = false) (h : DInv st) :
    DInv (designerStep st line) := by
  obtain ⟨h1, h2, h3⟩ := h
  simp only [designerStep]
  repeat' split
  all_goals first
    | exact ⟨h1, h2, h3⟩
    | exact ⟨okAcc_extend _ hex, h2, h3⟩
    | exact ⟨h1, okAcc_extend _ hex, h3⟩
    | exact ⟨h1, h2, okAcc_extend _ hex⟩

theorem foldl_inv_designer :
    ∀ (L : List (List Char)) (st : DState),
      (∀ l ∈ L, ∃ c ∈ l, isPySpace c = false) → DInv st → DInv (L.foldl designerStep st)
  | [], _, _, h => h
  | a :: t, st, hL, h =>
      foldl_inv_designer t _ (fun l hl => hL l (List.mem_cons_of_mem a hl))
        (designerStep_inv st a (hL a (List.mem_cons_self a t)) h)

theorem designerFold_inv (response : List Char) : DInv (designerFold response) := by
  apply foldl_inv_designer
  · intro l hl
    obtain ⟨hmem, hne⟩ := List.mem_filter.mp hl
    obtain ⟨raw, _, rfl⟩ := List.mem_map.mp hmem
    have hnn : trimL raw ≠ [] := fun hn => by simp [hn] at hne
    exact exists_nonspace_of_trimL hnn
  · exact ⟨okAcc_nil, okAcc_nil, okAcc_nil⟩

/-- Invariant of the tester loop state: the quality accumulator is sound and
the readiness flag is false whenever an issue has been collected. -/
def TInv (st : TState) : Prop :=
  okAcc st.quality ∧ (st.issues ≠ [] → st.ready = false)

theorem testerSections_quality (st : TState) (low : List Char) :
    (testerSections st low).quality = st.quality := by
  simp only [testerSections]
  split_ifs <;> rfl

theorem testerSections_issues (st : TState) (low : List Char) :
    (testerSections st low).issues = st.issues := by
  simp only [testerSections]
  split_ifs <;> rfl

theorem testerSections_suggestions (st : TState) (low : List Char) :
    (testerSections st low).suggestions = st.suggestions := by
  simp only [testerSections]
  split_ifs <;> rfl

/-- Section detection never raises the readiness flag. -/
theorem testerSections_ready (st : TState) (low : List Char) :
    (testerSections st low).ready = true → st.ready = true := by
  simp only [testerSections]
  split_ifs <;> simp

theorem testerExtract_inv (st : TState) (line : List Char)
    (hex : ∃ c ∈ line, isPySpace c = false) (h : TInv st) :
    TInv (testerExtract st line) := by
  obtain ⟨h1, h2⟩ := h
  simp only [testerExtract]
  repeat' split
  all_goals first
    | exact ⟨h1, h2⟩
    | exact ⟨h1, fun _ => rfl⟩
    | exact ⟨okAcc_extend _ hex, h2⟩

theorem testerStep_inv (st : TState) (raw : List Char) (h : TInv st) :
    TInv (testerStep st raw) := by
  obtain ⟨h1, h2⟩ := h
  simp only [testerStep]
  split
  · exact ⟨h1, h2⟩
  · rename_i he
    have hline : trimL raw ≠ [] := fun hn => he (by simp [hn])
    apply testerExtract_inv _ _ (exists_nonspace_of_trimL hline)
    constructor
    · rw [testerSections_quality]
      exact h1
    · intro hi
      rw [testerSections_issues] at hi
      have hr := h2 hi
      cases hready : (testerSections st (lowerL (trimL raw))).ready
      · rfl
      · have htrue := testerSections_ready _ _ hready
        rw [hr] at htrue
        exact htrue.symm

theorem foldl_inv_tester :
    ∀ (L : List (List Char)) (st : TState), TInv st → TInv (L.foldl testerStep st)
  | [], _, h => h
  | _ :: t, st, h => foldl_inv_tester t _ (testerStep_inv st _ h)

theorem testerFold_inv (response : List Char) : TInv (testerFold response) :=
  foldl_inv_tester _ _ ⟨okAcc_nil, fun h => absurd rfl h⟩

/-! ## Field lemmas of the four stages -/

/-- Every field of the planner output is non-empty: the fallback covers an
empty parse and the accumulator invariant covers a non-empty parse. -/
theorem plannerPlan_fields (language response : List Char) :
    (plannerPlan language response).project_overview ≠ [] ∧
    (plannerPlan language response).key_features ≠ [] ∧
    (plannerPlan language response).approach ≠ [] ∧
    (plannerPlan language response).considerations ≠ [] := by
  obtain ⟨h1, h2, h3⟩ := plannerFold_inv response
  simp only [plannerPlan]
  refine ⟨?_, ?_, ?_, ?_⟩
  · split
    · exact trimL_ne_nil_of_mem (c := '.')
        (List.mem_append.mpr (Or.inr (by decide))) (by decide)
    · rename_i hov
      exact trimL_ne_nil_of_okAcc h1 (fun hn => hov (by simp [hn]))
  · split
    · simp
    · rename_i hfe
      exact fun hn => hfe (by simp [hn])
  · split
    · exact trimL_ne_nil_of_mem (c := 'I')
        (List.mem_append.mpr (Or.inl (List.mem_append.mpr (Or.inl (by decide))))) (by decide)
    · rename_i hap
      exact trimL_ne_nil_of_okAcc h2 (fun hn => hap (by simp [hn]))
  · split
    · exact trimL_ne_nil_of_mem (c := 'F') (by decide) (by decide)
    · rename_i hco
      exact trimL_ne_nil_of_okAcc h3 (fun hn => hco (by simp [hn]))

/-- Every field of the designer output is non-empty. -/
theorem designerDesign_fields (language response : List Char) :
    (designerDesign language response).architecture ≠ [] ∧
    (designerDesign language response).components ≠ [] ∧
    (designerDesign language response).data_structures ≠ [] ∧
    (designerDesign language response).function_signatures ≠ [] := by
  obtain ⟨h1, h2, h3⟩ := designerFold_inv response
  simp only [designerDesign]
  refine ⟨?_, ?_, ?_, ?_⟩
  · split
    · exact trimL_ne_nil_of_mem (c := 'M')
        (List.mem_append.mpr (Or.inl (List.mem_append.mpr (Or.inl (by decide))))) (by decide)
    · rename_i har
      exact trimL_ne_nil_of_okAcc h1 (fun hn => har (by simp [hn]))
  · intro htake
    rcases List.take_eq_nil_iff.mp htake with h10 | hcomp
    · exact absurd h10 (by decide)
    · revert hcomp
      split
      · simp
      · rename_i hcm
        exact fun hn => hcm (by simp [hn])
  · split
    · exact trimL_ne_nil_of_mem (c := 'C') (by decide) (by decide)
    · rename_i hda
      exact trimL_ne_nil_of_okAcc h2 (fun hn => hda (by simp [hn]))
  · split
    · exact trimL_ne_nil_of_mem (c := 'i') (by decide) (by decide)
    · rename_i hfs
      exact trimL_ne_nil_of_okAcc h3 (fun hn => hfs (by simp [hn]))

/-- The filename and the explanation of the code generator output are
non-empty (the code field has no such guarantee). -/
theorem codeGenerate_fields (language response : List Char) :
    (codeGenerate language response).filename ≠ [] ∧
    (codeGenerate language response).explanation ≠ [] := by
  simp only [codeGenerate]
  constructor
  · show filenameFor language ≠ []
    unfold filenameFor
    intro h
    exact absurd (List.append_eq_nil.mp h).1 (by decide)
  · intro h
    rcases List.take_eq_nil_iff.mp h with h500 | hex
    · exact absurd h500 (by decide)
    · revert hex
      split
      · intro hex
        exact absurd (List.append_eq_nil.mp hex).1
          (fun h2 => absurd (List.append_eq_nil.mp h2).1 (by decide))
      · rename_i hp2
        exact fun hex => hp2 (by simp [hex])

/-- The readiness flag of the tester output equals the emptiness of the
collected issue list: collecting an issue clears the flag for good, and an
empty collection forces the flag to true in the fallback. -/
theorem testerTest_ready_eq (response : List Char) :
    (testerTest response).is_production_ready = (testerFold response).issues.isEmpty := by
  obtain ⟨_, hready⟩ := testerFold_inv response
  by_cases hi : (testerFold response).issues = []
  · simp [testerTest, hi]
  · have hif : (testerFold response).issues.isEmpty = false := by
      cases h' : (testerFold response).issues.isEmpty
      · rfl
      · exact absurd (List.isEmpty_iff.mp h') hi
    simp [testerTest, hif, hready hi]

/-- Every field of the tester output is non-empty. -/
theorem testerTest_fields (response : List Char) :
    (testerTest response).overall_quality ≠ [] ∧
    (testerTest response).test_results ≠ [] ∧
    (testerTest response).issues_found ≠ [] ∧
    (testerTest response).suggestions ≠ [] := by
  obtain ⟨hq, _⟩ := testerFold_inv response
  refine ⟨?_, ?_, ?_, ?_⟩
  · simp only [testerTest]
    split
    · exact trimL_ne_nil_of_mem (c := 'C')
        (List.mem_append.mpr (Or.inl (by decide))) (by decide)
    · rename_i hq2
      exact trimL_ne_nil_of_okAcc hq (fun hn => hq2 (by simp [hn]))
  · simp [testerTest]
  · simp only [testerTest]
    split
    · simp
    · rename_i h
      exact fun hn => h (by simp [hn])
  · simp only [testerTest]
    split
    · simp
    · rename_i h
      exact fun hn => h (by simp [hn])

/-! ## Claim theorems -/

/-- Claim C1, amended: for every language and all oracle responses, every
required field of the Plan, Design and ReviewReport records is non-empty, and
the filename and explanation of GeneratedCode are non-empty.  The code field
of GeneratedCode is excluded: it has no fallback (see the counterexample). -/
theorem c1_amended_fields_nonempty (language pResp dResp cResp tResp : List Char) :
    (plannerPlan language pResp).project_overview ≠ [] ∧
    (plannerPlan language pResp).key_features ≠ [] ∧
    (plannerPlan language pResp).approach ≠ [] ∧
    (plannerPlan language pResp).considerations ≠ [] ∧
    (designerDesign language dResp).architecture ≠ [] ∧
    (designerDesign language dResp).components ≠ [] ∧
    (designerDesign language dResp).data_structures ≠ [] ∧
    (designerDesign language dResp).function_signatures ≠ [] ∧
    (codeGenerate language cResp).filename ≠ [] ∧
    (codeGenerate language cResp).explanation ≠ [] ∧
    (testerTest tResp).overall_quality ≠ [] ∧
    (testerTest tResp).test_results ≠ [] ∧
    (testerTest tResp).issues_found ≠ [] ∧
    (testerTest tResp).suggestions ≠ [] := by
  obtain ⟨p1, p2, p3, p4⟩ := plannerPlan_fields language pResp
  obtain ⟨d1, d2, d3, d4⟩ := designerDesign_fields language dResp
  obtain ⟨g1, g2⟩ := codeGenerate_fields language cResp
  obtain ⟨t1, t2, t3, t4⟩ := testerTest_fields tResp
  exact ⟨p1, p2, p3, p4, d1, d2, d3, d4, g1, g2, t1, t2, t3, t4⟩

/-- Claim C1, counterexample: on the empty oracle response (with the valid
language python) the generated code field is empty, refuting the claim that
GeneratedCode.code is always non-empty. -/
theorem c1_counterexample_empty_code : (codeGenerate (str "python") []).code = [] := by
  decide

/-- Claim C2: the readiness flag of the review report is true exactly when
no issue was collected from the response (the static-check set is empty in
the src tester, so the union of the claim reduces to the collected list). -/
theorem c2_production_ready_iff_no_issue_collected (response : List Char) :
    (testerTest response).is_production_ready = true ↔ (testerFold response).issues = [] := by
  rw [testerTest_ready_eq]
  exact List.isEmpty_iff

/-- Claim C3: for every request and all oracle responses, the endpoint
returns the empty string under the planning, design and testing keys
(it reads the keys planner, designer and tester, which the orchestrator
never stores) and the whole GeneratedCode record under the code key. -/
theorem c3_endpoint_returns_wrong_keys
    (description language pResp dResp cResp tResp : List Char) :
    webGenerate description language pResp dResp cResp tResp =
      ⟨ResultValue.s [], ResultValue.s [],
       ResultValue.code (codeGenerate language cResp), ResultValue.s []⟩ := by
  rfl

/-- Claim C4, amended: the component list of the Design is capped at ten
entries, but the feature list of the Plan is not capped at all: whenever the
parse collects at least one bullet, the plan keeps every collected feature. -/
theorem c4_amended_caps (language response1 response2 : List Char) :
    (designerDesign language response2).components.length ≤ 10 ∧
    ((plannerFold response1).features ≠ [] →
      (plannerPlan language response1).key_features = (plannerFold response1).features) := by
  constructor
  · simp only [designerDesign]
    exact List.length_take_le 10 _
  · intro h
    have hne : ¬((plannerFold response1).features.isEmpty = true) :=
      fun hc => h (List.isEmpty_iff.mp hc)
    simp only [plannerPlan]
    rw [if_neg hne]

/-- Claim C4, counterexample: a response with nine feature bullets yields a
feature list of length nine, refuting the cap of eight. -/
theorem c4_counterexample_nine_features :
    (plannerPlan (str "python")
      (str "Features:\n- aaa1\n- aaa2\n- aaa3\n- aaa4\n- aaa5\n- aaa6\n- aaa7\n- aaa8\n- aaa9")).key_features.length
      = 9 := by
  decide

/-- Claim C4, witness: the uncapped-features half of the amended claim at a
concrete two-bullet response. -/
theorem c4_caps_witness :
    (plannerPlan (str "python") (str "Features:\n- bbb1\n- bbb2")).key_features =
      (plannerFold (str "Features:\n- bbb1\n- bbb2")).features :=
  (c4_amended_caps (str "python") (str "Features:\n- bbb1\n- bbb2") []).2 (by decide)

/-- Claim C5, amended: with exactly one closed fenced block the extracted
code is the stripped processing of the middle part (tag line removed when
recognized); with no fences the extracted code is the response stripped of
surrounding whitespace (not the verbatim response: see the counterexample). -/
theorem c5_amended_extraction (language content : List Char) :
    (∀ a b c : List Char, splitOnL (str "```") content = [a, b, c] →
      (codeGenerate language content).code = trimL (processBlock language b)) ∧
    (containsL (str "```") content = false →
      (codeGenerate language content).code = trimL content) := by
  constructor
  · intro a b c hp
    have hcont : containsL (str "```") content = true := by
      cases h' : containsL (str "```") content
      · rw [splitOnL_not_contains (by decide) h'] at hp
        exact absurd (congrArg List.length hp) (by simp)
      · rfl
    simp only [codeGenerate, extractPair, hcont, if_true]
    rw [hp]
    simp [findCodeBlock]
  · intro h
    simp [codeGenerate, extractPair, h]

/-- Claim C5, counterexample: a fence-free response with trailing whitespace
is not returned verbatim as the code; it is stripped. -/
theorem c5_counterexample_strip :
    (codeGenerate (str "python") (str "x = 1 ")).code ≠ str "x = 1 " := by
  decide

/-- Claim C5, witness: both halves of the amended claim at concrete
responses. -/
theorem c5_extraction_witness :
    (codeGenerate (str "python") (str "pre ```\nfoo\n``` post")).code =
      trimL (processBlock (str "python") (str "\nfoo\n")) ∧
    (codeGenerate (str "python") (str "hello")).code = trimL (str "hello") :=
  ⟨(c5_amended_extraction (str "python") (str "pre ```\nfoo\n``` post")).1
      (str "pre ") (str "\nfoo\n") (str " post") (by decide),
   (c5_amended_extraction (str "python") (str "hello")).2 (by decide)⟩

/-- Claim C6, amended: on a response containing fence delimiters, the
extracted code comes from the first odd split position alone (the loop
breaks after the first code block); later blocks are discarded, so the
reassembly-by-concatenation of the claim does not hold (see the
counterexample against the spec-modelled rejoin). -/
theorem c6_amended_first_block_only (language content : List Char)
    (h : containsL (str "```") content = true) :
    (codeGenerate language content).code =
      trimL (processBlock language ((splitOnL (str "```") content).tail.headI)) := by
  have h2 := @splitOnL_two_le (str "```") content (by decide) h
  rcases hparts : splitOnL (str "```") content with _ | ⟨p0, t⟩
  · rw [hparts] at h2
    simp at h2
  · rcases t with _ | ⟨p1, r⟩
    · rw [hparts] at h2
      simp at h2
    · simp [codeGenerate, extractPair, h, hparts, findCodeBlock]

/-- Claim C6, counterexample: with two fenced blocks the extracted code
differs from the concatenation of all odd-position blocks described by the
claim. -/
theorem c6_counterexample_two_blocks :
    (codeGenerate (str "python") (str "```\nA\n```mid```\nB\n```")).code ≠
      specRejoinAllBlocks (str "python") (str "```\nA\n```mid```\nB\n```") := by
  decide

/-- Claim C6, witness: the amended claim at a concrete two-block response. -/
theorem c6_first_block_witness :
    (codeGenerate (str "python") (str "a```one```b```two```c")).code =
      trimL (processBlock (str "python")
        ((splitOnL (str "```") (str "a```one```b```two```c")).tail.headI)) :=
  c6_amended_first_block_only (str "python") (str "a```one```b```two```c") (by decide)

/-- Claim C7: the suggested filename is a pure function of the language
alone; it is case-insensitive; Python maps to the py file, javascript to the
js file, and a language missing from the table to the txt file. -/
theorem c7_filename_mapping :
    (∀ language response : List Char,
      (codeGenerate language response).filename = filenameFor language) ∧
    (∀ l1 l2 : List Char, lowerL l1 = lowerL l2 → filenameFor l1 = filenameFor l2) ∧
    filenameFor (str "Python") = str "generated_code.py" ∧
    filenameFor (str "PYTHON") = str "generated_code.py" ∧
    filenameFor (str "pYtHoN") = str "generated_code.py" ∧
    filenameFor (str "javascript") = str "generated_code.js" ∧
    filenameFor (str "JavaScript") = str "generated_code.js" ∧
    (∀ l : List Char, List.lookup (lowerL l) extensionMap = none →
      filenameFor l = str "generated_code.txt") := by
  refine ⟨fun language response => rfl, fun l1 l2 h => ?_,
    by decide, by decide, by decide, by decide, by decide, fun l h => ?_⟩
  · unfold filenameFor
    rw [h]
  · unfold filenameFor
    rw [h]
    rfl

/-- Claim C7, witness: the unknown-language fallback and the
case-insensitivity congruence at concrete languages. -/
theorem c7_filename_witness :
    filenameFor (str "haskell") = str "generated_code.txt" ∧
    filenameFor (str "RuSt") = filenameFor (str "rUsT") :=
  ⟨c7_filename_mapping.2.2.2.2.2.2.2 (str "haskell") (by decide),
   c7_filename_mapping.2.1 (str "RuSt") (str "rUsT") (by decide)⟩

/-- Claim C8 (spec-modelled): the static infinite-loop check flags code
containing the unconditional loop text with no break anywhere, and never
flags code containing break. -/
theorem c8_static_infinite_loop_check (code : List Char) :
    (containsL (str "while (true)") code = true → containsL (str "break") code = false →
      staticInfiniteLoopFlag code = true) ∧
    (containsL (str "break") code = true → staticInfiniteLoopFlag code = false) := by
  constructor
  · intro h1 h2
    simp [staticInfiniteLoopFlag, h1, h2]
  · intro h
    simp [staticInfiniteLoopFlag, h]

/-- Claim C8, witness: both directions of the static check at concrete code
texts. -/
theorem c8_static_check_witness :
    staticInfiniteLoopFlag (str "while (true) do x") = true ∧
    staticInfiniteLoopFlag (str "while (true) do break") = false :=
  ⟨(c8_static_infinite_loop_check (str "while (true) do x")).1 (by decide) (by decide),
   (c8_static_infinite_loop_check (str "while (true) do break")).2 (by decide)⟩

/-- Claim C9, amended: every review report carries exactly three fixed named
checks (Syntax Check, Logic Review, Best Practices); the first passes when
no collected issue mentions syntax, the second when none mentions logic, and
the third equals the production-readiness flag. -/
theorem c9_amended_three_checks (response : List Char) :
    (testerTest response).test_results.map TestResult.test_name =
      [str "Syntax Check", str "Logic Review", str "Best Practices"] ∧
    (testerTest response).test_results.map TestResult.passed =
      [!((testerFold response).issues.any (fun i => containsL (str "syntax") (lowerL i))),
       !((testerFold response).issues.any (fun i => containsL (str "logic") (lowerL i))),
       (testerTest response).is_production_ready] := by
  constructor
  · simp [testerTest]
  · rw [testerTest_ready_eq]
    simp [testerTest]

/-- Claim C9, counterexample: on a concrete response the report carries
three checks, not the two fixed checks named in the claim. -/
theorem c9_counterexample_check_names :
    (testerTest (str "Issues:\n- bad syntax here")).test_results.map TestResult.test_name ≠
      [str "Syntax & Structure", str "Runtime Safety"] ∧
    (testerTest (str "Issues:\n- bad syntax here")).test_results.length = 3 := by
  exact ⟨by decide, by decide⟩

/-- Claim C10: whenever the parse collects no bullet issue, the report gets
the single fallback issue entry and the readiness flag is forced to true,
even when a line of the response had cleared the flag earlier. -/
theorem c10_issue_fallback_forces_ready (response : List Char)
    (h : (testerFold response).issues = []) :
    (testerTest response).issues_found = [str "No critical issues found"] ∧
    (testerTest response).is_production_ready = true := by
  simp [testerTest, h]

/-- Claim C10, witness: a response stating the code is not production ready
clears the loop flag, yet the returned report carries the fallback issue
entry and a true readiness flag. -/
theorem c10_fallback_witness :
    (testerFold (str "The code is not production ready.")).issues = [] ∧
    (testerFold (str "The code is not production ready.")).ready = false ∧
    (testerTest (str "The code is not production ready.")).issues_found =
      [str "No critical issues found"] ∧
    (testerTest (str "The code is not production ready.")).is_production_ready = true :=
  ⟨by decide, by decide,
   (c10_issue_fallback_forces_ready (str "The code is not production ready.") (by decide)).1,
   (c10_issue_fallback_forces_ready (str "The code is not production ready.") (by decide)).2⟩
